import Mathlib

/-!
Verification of the `httplog` package (a per-request HTTP access logger).

The development shallowly embeds the Go source of `httplog.go` and
`middleware.go`:

* the logger state `httpLogger` becomes the structure `HttpLogger`
  (the `io.Writer` reference is modelled by an abstract numeric id `wId`,
  the writer's stream itself is modelled externally as a `List String`
  of the individual `Write` calls it received);
* extra parameters (`map[string]interface{}`) become an association list
  `List (String × LogValue)` with Go map insert/overwrite semantics; the
  order in which Go's `range` enumerates a map is unspecified, so every
  operation that iterates over the extras takes the iteration sequence as
  an explicit argument, admissible iff it is a permutation of the entries;
* `time.Now()` is modelled by passing the already formatted timestamp
  string to `Log`;
* the raw request dump produced by `httputil.DumpRequest` and consumed
  line by line through `bufio.Scanner` is modelled as the list of scanned
  lines (`Request.dumpLines`); the scanner never yields a line containing
  a newline character;
* the three regular expressions compiled in `SetRequestInfo` are embedded
  by executable functions implementing Go's leftmost-first greedy match
  semantics for exactly those patterns;
* `net.SplitHostPort` (Go standard library, called by `getIP`) is embedded
  following its stdlib implementation: last-colon split, bracketed-host
  handling, and its error cases.
-/

namespace Httplog

/-- A value passed to `Add` (`interface\x7b\x7d` in Go) together with its
`fmt.Sprintf` rendering with verb percent-v: integers print in decimal,
strings print verbatim. -/
inductive LogValue where
  | int (n : Int) : LogValue
  | str (s : String) : LogValue
deriving DecidableEq

/-- The percent-v rendering used by `buildLogEntry` for extra values. -/
def renderValue : LogValue → String
  | LogValue.int n => toString n
  | LogValue.str s => s

/-- Go map insert `extras[key] = value`: overwrite the entry with that key
if present, otherwise add a fresh entry. -/
def addExtra (k : String) (v : LogValue) : List (String × LogValue) → List (String × LogValue)
  | [] => [(k, v)]
  | (k', v') :: rest => if k' = k then (k, v) :: rest else (k', v') :: addExtra k v rest

/-- Go map lookup on the modelled extras. -/
def lookupExtra (k : String) : List (String × LogValue) → Option LogValue
  | [] => none
  | (k', v') :: rest => if k' = k then some v' else lookupExtra k rest

/-- The logger state, mirroring the Go struct `httpLogger` field by field.
`wId` stands for the `io.Writer` reference `w`. -/
structure HttpLogger where
  wId : Nat
  ip : String
  method : String
  path : String
  ua : String
  params : String
  status : Int
  reqRaw : List String
  extras : List (String × LogValue)
deriving DecidableEq

/-- `New(w)`: a logger bound to the writer, extras initialised to an empty
map, every other field at its Go zero value. -/
def New (w : Nat) : HttpLogger :=
  { wId := w, ip := "", method := "", path := "", ua := "", params := "",
    status := 0, reqRaw := [], extras := [] }

/-- `Add(key, value)`: insert or overwrite an extra parameter. -/
def Add (key : String) (value : LogValue) (l : HttpLogger) : HttpLogger :=
  { l with extras := addExtra key value l.extras }

/-- `SetStatus(s)`: overwrite the status field. -/
def SetStatus (s : Int) (l : HttpLogger) : HttpLogger :=
  { l with status := s }

/-- One ` key=value` segment appended per extras entry by `buildLogEntry`. -/
def extraSeg (kv : String × LogValue) : String :=
  " " ++ kv.1 ++ "=" ++ renderValue kv.2

/-- The extras portion of a log entry for a given iteration sequence. -/
def extrasString (o : List (String × LogValue)) : String :=
  String.join (o.map extraSeg)

/-- `buildLogEntry`: the fixed fields in source order, then one segment per
extras entry in the (unspecified) map iteration order `o`.  `now` is the
already formatted `time.Now().UTC()` stamp. -/
def buildLogEntry (l : HttpLogger) (now : String) (o : List (String × LogValue)) : String :=
  "level=I" ++ (" time=" ++ now) ++ (" ip=" ++ l.ip) ++ (" method=" ++ l.method)
    ++ (" path=" ++ l.path) ++ (" ua=" ++ l.ua) ++ (" status=" ++ toString l.status)
    ++ (" params=" ++ l.params) ++ extrasString o

/-- `Log()`: one `Write` call of the entry terminated by a newline; the
logger state is read, never written.  The writer stream is the list of
`Write` call payloads so far. -/
def Log (l : HttpLogger) (now : String) (o : List (String × LogValue)) (sink : List String) :
    HttpLogger × List String :=
  (l, sink ++ [buildLogEntry l now o ++ "\n"])

/-- The single-pass replacement performed by
`strings.NewReplacer("=", quote colon space quote, "&", quote comma space quote)`:
both patterns are single characters, so the replacer substitutes each
occurrence left to right. -/
def replaceQS : List Char → List Char
  | [] => []
  | c :: cs =>
      (if c = '=' then ['\"', ':', ' ', '\"']
       else if c = '&' then ['\"', ',', ' ', '\"'] else [c]) ++ replaceQS cs

/-- `toJSON`: wrap the replaced query string in open-brace-quote and
quote-close-brace. -/
def toJSON (s : String) : String :=
  "\x7b\"" ++ String.mk (replaceQS s.data) ++ "\"\x7d"

-- Basic sanity checks of the embedding against the repository's tests.
example : toJSON "foo=bar" = "\x7b\"foo\": \"bar\"\x7d" := by decide
example : toJSON "a=1&b=2" = "\x7b\"a\": \"1\", \"b\": \"2\"\x7d" := by decide

/-- Go regexp character class `\s` (RE2 Perl class): tab, newline, form
feed, carriage return, space. -/
def spaceGo (c : Char) : Bool :=
  c = '\t' || c = '\n' || c = '\x0c' || c = '\r' || c = ' '

/-- Go regexp `.`: any character except newline. -/
def dotGo (c : Char) : Bool :=
  c ≠ '\n'

/-- Valid end position for the second whitespace of pattern
`(.+)\s(.+)\sHTTP` when the first whitespace sits at `i`: `s[j]` is
whitespace, the second group `s[i+1..j)` is nonempty and newline free, and
the literal `HTTP` follows `j`. -/
def okJ (s : List Char) (i j : Nat) : Bool :=
  decide (i + 2 ≤ j) &&
    (match s.get? j with | some c => spaceGo c | none => false) &&
    ((s.drop (i + 1)).take (j - (i + 1))).all dotGo &&
    decide ((s.drop (j + 1)).take 4 = ['H', 'T', 'T', 'P'])

/-- Valid end position for the first whitespace of `(.+)\s(.+)\sHTTP`:
the first group `s[0..i)` is nonempty and newline free, `s[i]` is
whitespace, and some second whitespace position exists. -/
def okI (s : List Char) (i : Nat) : Bool :=
  decide (1 ≤ i) &&
    (match s.get? i with | some c => spaceGo c | none => false) &&
    (s.take i).all dotGo &&
    !((List.range s.length).filter (okJ s i)).isEmpty

/-- Greedy match of `(.+)\s(.+)\sHTTP` at the start of `s`: backtracking
tries the longest first group first, and for each first group the longest
second group, so both whitespace positions are maximal. -/
def reqLineCore (s : List Char) : Option (List Char × List Char) :=
  match ((List.range s.length).filter (okI s)).getLast? with
  | none => none
  | some i =>
    match ((List.range s.length).filter (okJ s i)).getLast? with
    | none => none
    | some j => some (s.take i, (s.drop (i + 1)).take (j - (i + 1)))

/-- `pathRegexp.FindStringSubmatch`, pattern `(.+)\s(.+)\sHTTP`: submatch
pair of the leftmost-first match (smallest start offset admitting a
match). -/
def matchReqLine (line : String) : Option (String × String) :=
  match (List.range line.data.length).find? (fun st => (reqLineCore (line.data.drop st)).isSome) with
  | none => none
  | some st => (reqLineCore (line.data.drop st)).map (fun p => (String.mk p.1, String.mk p.2))

/-- Greedy match of `User-Agent:\s(.+)` at the start of `s`: the literal,
one whitespace character, then a nonempty newline-free group that runs to
the end of the line (or to the next newline). -/
def uaCore (s : List Char) : Option (List Char) :=
  if s.take 11 = "User-Agent:".data then
    match s.get? 11 with
    | some c =>
      if spaceGo c then
        let rest := (s.drop 12).takeWhile dotGo
        if rest.isEmpty then none else some rest
      else none
    | none => none
  else none

/-- `userAgentRegexp.FindStringSubmatch`, pattern `User-Agent:\s(.+)`:
group of the leftmost match. -/
def matchUA (line : String) : Option String :=
  match (List.range line.data.length).find? (fun st => (uaCore (line.data.drop st)).isSome) with
  | none => none
  | some st => (uaCore (line.data.drop st)).map String.mk

/-- Valid position for the literal question mark of `(.+)\?(.+)`: both
groups nonempty and newline free. -/
def okQ (s : List Char) (k : Nat) : Bool :=
  decide (1 ≤ k) &&
    decide (s.get? k = some '?') &&
    (s.take k).all dotGo &&
    !((s.drop (k + 1)).takeWhile dotGo).isEmpty

/-- Greedy match of `(.+)\?(.+)` at the start of `s`: the first group is
maximal, so the split happens at the last admissible question mark. -/
def queryCore (s : List Char) : Option (List Char × List Char) :=
  match ((List.range s.length).filter (okQ s)).getLast? with
  | none => none
  | some k => some (s.take k, (s.drop (k + 1)).takeWhile dotGo)

/-- `getParamsRegexp.FindStringSubmatch`, pattern `(.+)\?(.+)`: submatch
pair of the leftmost-first match. -/
def splitQuery (t : String) : Option (String × String) :=
  match (List.range t.data.length).find? (fun st => (queryCore (t.data.drop st)).isSome) with
  | none => none
  | some st => (queryCore (t.data.drop st)).map (fun p => (String.mk p.1, String.mk p.2))

example : matchReqLine "POST /resources HTTP/1.1" = some ("POST", "/resources") := by decide
example : matchReqLine "Host: example.com" = none := by decide
example : matchUA "User-Agent: request-ua" = some "request-ua" := by decide
example : matchUA "Accept: */*" = none := by decide
example : splitQuery "/resources?foo=bar" = some ("/resources", "foo=bar") := by decide
example : splitQuery "/resources" = none := by decide
example : splitQuery "/a?" = none := by decide
example : splitQuery "/a?b?c" = some ("/a?b", "c") := by decide

/-- Index of the last occurrence of a character (Go `last` helper inside
`net.SplitHostPort`). -/
def idxLast (c : Char) : List Char → Option Nat
  | [] => none
  | x :: xs =>
    match idxLast c xs with
    | some i => some (i + 1)
    | none => if x = c then some 0 else none

/-- Index of the first occurrence of a character (Go `byteIndex`). -/
def idxFirst (c : Char) : List Char → Option Nat
  | [] => none
  | x :: xs => if x = c then some 0 else (idxFirst c xs).map (· + 1)

/-- Whether a character occurs (Go `byteIndex(...) >= 0`). -/
def hasChar (c : Char) : List Char → Bool
  | [] => false
  | x :: xs => if x = c then true else hasChar c xs

/-- `net.SplitHostPort` from the Go standard library, as called by `getIP`:
split at the last colon, with `[host]:port` bracket handling; `none` stands
for every error return (missing port, too many colons, malformed
brackets). -/
def splitHostPortCore (cs : List Char) : Option (List Char × List Char) :=
  match idxLast ':' cs with
  | none => none
  | some i =>
    match cs.head? with
    | none => none
    | some c0 =>
      if c0 = '[' then
        match idxFirst ']' cs with
        | none => none
        | some e =>
          if e + 1 = cs.length then none
          else if e + 1 = i then
            if hasChar '[' (cs.drop 1) then none
            else if hasChar ']' (cs.drop (e + 1)) then none
            else some ((cs.take e).drop 1, cs.drop (i + 1))
          else none
      else
        if hasChar ':' (cs.take i) then none
        else if hasChar '[' cs then none
        else if hasChar ']' cs then none
        else some (cs.take i, cs.drop (i + 1))

/-- String wrapper for `net.SplitHostPort`. -/
def splitHostPort (s : String) : Option (String × String) :=
  (splitHostPortCore s.data).map (fun p => (String.mk p.1, String.mk p.2))

/-- The part of an `*http.Request` the logger reads.  `xff` is the raw
`X-Forwarded-For` header value (`none` when the header is absent;
`Header.Get` returns the empty string in that case), `remoteAddr` is the
peer address, and `dumpLines` is the line sequence that `bufio.Scanner`
produces from the `httputil.DumpRequest` dump (an unserialisable request
dumps as the empty string, hence an empty line list). -/
structure Request where
  xff : Option String
  remoteAddr : String
  dumpLines : List String
deriving DecidableEq

/-- `getIP`: a nonempty forwarding header wins verbatim; otherwise the
host part of `SplitHostPort`, or the raw peer address when splitting
fails. -/
def getIP (r : Request) : String :=
  let forwarded := r.xff.getD ""
  if 0 < forwarded.length then forwarded
  else
    match splitHostPort r.remoteAddr with
    | some hp => hp.1
    | none => r.remoteAddr

example : getIP { xff := some "127.0.0.1", remoteAddr := "9.9.9.9:1234", dumpLines := [] } = "127.0.0.1" := by decide
example : getIP { xff := none, remoteAddr := "192.0.2.1:1234", dumpLines := [] } = "192.0.2.1" := by decide
example : getIP { xff := none, remoteAddr := "localhost", dumpLines := [] } = "localhost" := by decide
example : getIP { xff := none, remoteAddr := "[::1]:80", dumpLines := [] } = "::1" := by decide
example : getIP { xff := none, remoteAddr := "::1", dumpLines := [] } = "::1" := by decide

/-- `setPath`: on a request-line match set method and path; if the target
also splits at a question mark, shorten the path and set params from the
query. -/
def setPath (l : HttpLogger) (line : String) : HttpLogger :=
  match matchReqLine line with
  | none => l
  | some mt =>
    let l' := { l with method := mt.1, path := mt.2 }
    match splitQuery mt.2 with
    | none => l'
    | some pq => { l' with path := pq.1, params := toJSON pq.2 }

/-- `setUa`: on a `User-Agent` match overwrite the ua field. -/
def setUa (l : HttpLogger) (line : String) : HttpLogger :=
  match matchUA line with
  | none => l
  | some ua => { l with ua := ua }

/-- One iteration of the scanner loop in `SetRequestInfo`: `setPath` then
`setUa` on the current line. -/
def scanStep (l : HttpLogger) (line : String) : HttpLogger :=
  setUa (setPath l line) line

/-- `SetRequestInfo`: set the ip and the raw dump, scan the dump line by
line (each iteration also remembers the current line in the loop variable
`line`, initially empty), and finally fall back to the last scanned line
as params when params is still empty. -/
def SetRequestInfo (r : Request) (l : HttpLogger) : HttpLogger :=
  let l0 := { l with ip := getIP r, reqRaw := r.dumpLines }
  let pr := r.dumpLines.foldl (fun (q : HttpLogger × String) line => (scanStep q.1 line, line)) (l0, "")
  if pr.1.params.length = 0 then { pr.1 with params := pr.2 } else pr.1

-- The two scenarios of the repository's TestSetRequestInfo.
example :
    let r : Request :=
      { xff := none, remoteAddr := "192.0.2.1:1234",
        dumpLines := ["POST https://example.com/resources HTTP/1.1",
                      "Host: example.com", "User-Agent: request-ua", "",
                      "\x7b\"foo\": \"bar\"\x7d"] }
    let l := SetRequestInfo r (New 0)
    l.ip = "192.0.2.1" ∧ l.method = "POST" ∧ l.path = "https://example.com/resources" ∧
      l.ua = "request-ua" ∧ l.params = "\x7b\"foo\": \"bar\"\x7d" := by decide

example :
    let r : Request :=
      { xff := some "127.0.0.1", remoteAddr := "192.0.2.1:1234",
        dumpLines := ["GET https://example.com/resources?foo=bar HTTP/1.1",
                      "Host: example.com", "User-Agent: request-ua", ""] }
    let l := SetRequestInfo r (New 0)
    l.ip = "127.0.0.1" ∧ l.method = "GET" ∧ l.path = "https://example.com/resources" ∧
      l.ua = "request-ua" ∧ l.params = "\x7b\"foo\": \"bar\"\x7d" := by decide

/-- The downstream `http.Handler` as the middleware observes it: the
sequence of `WriteHeader` calls it makes on the wrapped writer, and
whether it then unwinds with a runtime panic instead of returning. -/
structure Handler where
  statusCalls : List Int
  doesPanic : Bool
deriving DecidableEq

/-- `loggingResponseWriter`: the remembered `Status` field plus the calls
forwarded to the wrapped `http.ResponseWriter`. -/
structure LRW where
  status : Int
  forwarded : List Int
deriving DecidableEq

/-- `loggingResponseWriter.WriteHeader`: remember the status (overwriting
any earlier one) and forward the call. -/
def lrwWriteHeader (s : Int) (w : LRW) : LRW :=
  { status := s, forwarded := w.forwarded ++ [s] }

/-- Running the downstream handler against a wrapped writer. -/
def runHandler (calls : List Int) (w : LRW) : LRW :=
  calls.foldl (fun w s => lrwWriteHeader s w) w

/-- Outcome of one `loggingHandler.ServeHTTP` invocation. -/
structure MWResult where
  logger : HttpLogger
  writer : LRW
  sink : List String
  panicked : Bool
deriving DecidableEq

/-- `loggingHandler.ServeHTTP` under Go statement semantics:
`SetRequestInfo`, then the downstream handler on a fresh
`loggingResponseWriter` (zero-valued `Status`), then `SetStatus` with the
remembered status, then `defer h.logger.Log()` as the final statement,
which runs `Log` when the function returns.  If the downstream handler
panics, the unwind leaves `ServeHTTP` before the `SetStatus` line; the
`defer` on the last line has not yet been registered at that point, so no
deferred call runs and `Log` is skipped. -/
def serveHTTP (h : Handler) (r : Request) (l : HttpLogger) (now : String)
    (o : List (String × LogValue)) (sink : List String) : MWResult :=
  let l1 := SetRequestInfo r l
  let w1 := runHandler h.statusCalls { status := 0, forwarded := [] }
  if h.doesPanic then
    { logger := l1, writer := w1, sink := sink, panicked := true }
  else
    let l2 := SetStatus w1.status l1
    let res := Log l2 now o sink
    { logger := res.1, writer := w1, sink := res.2, panicked := false }

-- TestWithLogging: a handler writing status 200 for a GET with query foo=bar.
example :
    let r : Request :=
      { xff := none, remoteAddr := "192.0.2.1:1234",
        dumpLines := ["GET /?foo=bar HTTP/1.1", "Host: example.com",
                      "User-Agent: Go-http-client/1.1", ""] }
    let res := serveHTTP { statusCalls := [200], doesPanic := false } r (New 0) "T" [] []
    res.logger.status = 200 ∧ res.logger.params = "\x7b\"foo\": \"bar\"\x7d" ∧
      res.sink.length = 1 := by decide

/-! ### Helper lemmas -/

theorem stringLengthZero (s : String) : s.length = 0 ↔ s = "" := by
  constructor
  · intro h
    apply String.ext
    exact List.length_eq_zero.mp h
  · intro h
    rw [h]
    rfl

theorem takeWhileAll (p : Char → Bool) (l : List Char) (h : ∀ x ∈ l, p x) :
    l.takeWhile p = l := by
  induction l with
  | nil => rfl
  | cons x xs ih =>
    simp only [List.takeWhile, h x (by simp)]
    simp only [List.cons.injEq, true_and]
    exact ih (fun y hy => h y (by simp [hy]))

theorem toJSONNeEmpty (s : String) : toJSON s ≠ "" := by
  intro h
  have h2 : (toJSON s).data.length = 0 := by rw [h]; rfl
  rw [toJSON, String.data_append, String.data_append] at h2
  rw [List.length_append, List.length_append] at h2
  have hA : ("\x7b\"" : String).data.length = 2 := by decide
  have hB : ("\"\x7d" : String).data.length = 2 := by decide
  omega

theorem extrasStringNilEq : extrasString [] = "" := rfl

/-- The fixed tail of a log line after the timestamp: every rendered field
except `level` and `time`, in `buildLogEntry` order. -/
def restLine (l : HttpLogger) : String :=
  " ip=" ++ l.ip ++ " method=" ++ l.method ++ " path=" ++ l.path ++ " ua=" ++ l.ua
    ++ " status=" ++ toString l.status ++ " params=" ++ l.params

theorem buildLogEntryDecomp (l : HttpLogger) (now : String) (o : List (String × LogValue)) :
    buildLogEntry l now o = "level=I time=" ++ now ++ (restLine l ++ extrasString o) := by
  apply String.ext
  simp only [buildLogEntry, restLine, String.data_append, List.append_assoc]
  rfl

theorem buildLogEntryFlat (l : HttpLogger) (now : String) (o : List (String × LogValue)) :
    buildLogEntry l now o =
      "level=I" ++ " time=" ++ now ++ " ip=" ++ l.ip ++ " method=" ++ l.method
        ++ " path=" ++ l.path ++ " ua=" ++ l.ua ++ " status=" ++ toString l.status
        ++ " params=" ++ l.params ++ extrasString o := by
  apply String.ext
  simp only [buildLogEntry, String.data_append, List.append_assoc]

/-! ### C8: Log leaves the logger state unchanged -/

/-- C8: `log()` leaves the entire logger state unchanged — ip, method,
path, ua, params, status, the extras map and the bound sink reference keep
their values — and its only effect is appending one write to the sink. -/
theorem c8_log_frame (l : HttpLogger) (now : String) (o : List (String × LogValue))
    (sink : List String) :
    (Log l now o sink).1 = l ∧
    (Log l now o sink).1.ip = l.ip ∧ (Log l now o sink).1.method = l.method ∧
    (Log l now o sink).1.path = l.path ∧ (Log l now o sink).1.ua = l.ua ∧
    (Log l now o sink).1.params = l.params ∧ (Log l now o sink).1.status = l.status ∧
    (Log l now o sink).1.extras = l.extras ∧ (Log l now o sink).1.wId = l.wId ∧
    (Log l now o sink).2 = sink ++ [buildLogEntry l now o ++ "\n"] :=
  ⟨rfl, rfl, rfl, rfl, rfl, rfl, rfl, rfl, rfl, rfl⟩

/-! ### C9: the first line of a fresh logger -/

/-- C9: `New(w)` yields empty string fields, status 0 and an empty extras
map, and its first `log()` writes exactly the line
`level=I time=<stamp> ip= method= path= ua= status=0 params=` followed by
one newline.  The empty extras map admits only the empty iteration
sequence. -/
theorem c9_fresh_logger_first_line (w : Nat) (t : String) (sink : List String) :
    (New w).ip = "" ∧ (New w).method = "" ∧ (New w).path = "" ∧ (New w).ua = "" ∧
    (New w).params = "" ∧ (New w).status = 0 ∧ (New w).extras = [] ∧
    (Log (New w) t [] sink).1 = New w ∧
    (Log (New w) t [] sink).2 =
      sink ++ ["level=I time=" ++ t ++ " ip= method= path= ua= status=0 params=\n"] := by
  refine ⟨rfl, rfl, rfl, rfl, rfl, rfl, rfl, rfl, ?_⟩
  show sink ++ [buildLogEntry (New w) t [] ++ "\n"] = _
  rw [buildLogEntryDecomp]
  apply congrArg
  apply congrArg (fun s => [s])
  apply String.ext
  simp only [String.data_append, List.append_assoc]
  rfl

/-! ### C10: frame conditions of SetStatus and Add -/

theorem lookupAddSelf (k : String) (v : LogValue) (e : List (String × LogValue)) :
    lookupExtra k (addExtra k v e) = some v := by
  induction e with
  | nil => simp [addExtra, lookupExtra]
  | cons kv rest ih =>
    obtain ⟨a, b⟩ := kv
    by_cases hak : a = k
    · subst hak
      simp [addExtra, lookupExtra]
    · simp [addExtra, hak, lookupExtra, ih]

theorem lookupAddNe (k k' : String) (v : LogValue) (e : List (String × LogValue))
    (h : k' ≠ k) : lookupExtra k' (addExtra k v e) = lookupExtra k' e := by
  have hkk : k ≠ k' := Ne.symm h
  induction e with
  | nil => simp [addExtra, lookupExtra, hkk]
  | cons kv rest ih =>
    obtain ⟨a, b⟩ := kv
    by_cases hak : a = k
    · subst hak
      simp [addExtra, lookupExtra, hkk]
    · by_cases hak' : a = k'
      · simp [addExtra, hak, lookupExtra, hak', h]
      · simp [addExtra, hak, lookupExtra, hak', ih]

/-- C10: `setStatus(s)` changes only the status field, and `add(k, v)`
changes only the extras entry at key `k`: it maps `k` to `v` and leaves
every other key's entry and every non-extras field unchanged. -/
theorem c10_setStatus_add_frame (l : HttpLogger) (s : Int) (k : String) (v : LogValue) :
    (SetStatus s l).status = s ∧
    (SetStatus s l).ip = l.ip ∧ (SetStatus s l).method = l.method ∧
    (SetStatus s l).path = l.path ∧ (SetStatus s l).ua = l.ua ∧
    (SetStatus s l).params = l.params ∧ (SetStatus s l).extras = l.extras ∧
    (SetStatus s l).wId = l.wId ∧
    (Add k v l).ip = l.ip ∧ (Add k v l).method = l.method ∧
    (Add k v l).path = l.path ∧ (Add k v l).ua = l.ua ∧
    (Add k v l).params = l.params ∧ (Add k v l).status = l.status ∧
    (Add k v l).wId = l.wId ∧
    lookupExtra k (Add k v l).extras = some v ∧
    (∀ k', k' ≠ k → lookupExtra k' (Add k v l).extras = lookupExtra k' l.extras) := by
  refine ⟨rfl, rfl, rfl, rfl, rfl, rfl, rfl, rfl, rfl, rfl, rfl, rfl, rfl, rfl, rfl, ?_, ?_⟩
  · exact lookupAddSelf k v l.extras
  · intro k' hk'
    exact lookupAddNe k k' v l.extras hk'

/-! ### C3: one write per Log call, in the fixed field order -/

/-- C3: one `log()` call performs exactly one write to the sink; the
written bytes are `level=I`, then time, ip, method, path, ua, status (in
decimal) and params in that fixed order, each segment preceded by a single
space and rendered as key=value, then one ` key=value` segment per extras
entry (in the map iteration order, one segment for each entry), terminated
by the single appended newline with no trailing space added before it. -/
theorem c3_log_single_write_format (l : HttpLogger) (now : String)
    (o : List (String × LogValue)) (sink : List String) (h : o.Perm l.extras) :
    (Log l now o sink).2 =
      sink ++ ["level=I" ++ " time=" ++ now ++ " ip=" ++ l.ip ++ " method=" ++ l.method
        ++ " path=" ++ l.path ++ " ua=" ++ l.ua ++ " status=" ++ toString l.status
        ++ " params=" ++ l.params ++ extrasString o ++ "\n"]
    ∧ (o.map extraSeg).Perm (l.extras.map extraSeg)
    ∧ (Log l now o sink).2.length = sink.length + 1 := by
  refine ⟨?_, h.map extraSeg, by simp [Log]⟩
  show sink ++ [buildLogEntry l now o ++ "\n"] = _
  rw [buildLogEntryFlat]

theorem c3_witness :
    (Log (Add "uid" (LogValue.int 1234) (New 0)) "T"
        [("uid", LogValue.int 1234)] []).2.length = 1 := by
  have h := c3_log_single_write_format (Add "uid" (LogValue.int 1234) (New 0)) "T"
    [("uid", LogValue.int 1234)] [] (by decide)
  exact h.2.2

/-! ### C7: rendering is deterministic apart from the timestamp and the
extras iteration order -/

/-- C7 fails as stated: the Go runtime deliberately randomises map
iteration order, so two consecutive `log()` calls on the same logger may
enumerate a two-entry extras map in different orders and produce lines
that differ beyond the time field.  Both orders below are admissible
iteration sequences of the same extras map, the timestamps are even equal,
yet the rendered lines differ. -/
theorem c7_counterexample :
    ([("a", LogValue.str "1"), ("b", LogValue.str "2")].Perm
      ({ New 0 with extras := [("a", LogValue.str "1"), ("b", LogValue.str "2")] }).extras) ∧
    ([("b", LogValue.str "2"), ("a", LogValue.str "1")].Perm
      ({ New 0 with extras := [("a", LogValue.str "1"), ("b", LogValue.str "2")] }).extras) ∧
    buildLogEntry { New 0 with extras := [("a", LogValue.str "1"), ("b", LogValue.str "2")] }
        "T" [("a", LogValue.str "1"), ("b", LogValue.str "2")] ≠
      buildLogEntry { New 0 with extras := [("a", LogValue.str "1"), ("b", LogValue.str "2")] }
        "T" [("b", LogValue.str "2"), ("a", LogValue.str "1")] := by
  refine ⟨by decide, by decide, by decide⟩

/-- C7 amended: two consecutive `log()` calls on an unmodified logger
produce lines that agree on everything except the time field value and the
relative order of the extras segments: both lines are
`level=I time=<stamp>` followed by the same fixed remainder, their extras
segments are permutations of each other, and when the extras map has at
most one entry the iteration order is unique, so the lines are identical
except for the timestamp. -/
theorem c7_render_deterministic_amended (L : HttpLogger) (t1 t2 : String)
    (o1 o2 : List (String × LogValue))
    (h1 : o1.Perm L.extras) (h2 : o2.Perm L.extras) :
    buildLogEntry L t1 o1 = "level=I time=" ++ t1 ++ (restLine L ++ extrasString o1) ∧
    buildLogEntry L t2 o2 = "level=I time=" ++ t2 ++ (restLine L ++ extrasString o2) ∧
    (o1.map extraSeg).Perm (o2.map extraSeg) ∧
    (L.extras.length ≤ 1 → o1 = o2) := by
  refine ⟨buildLogEntryDecomp L t1 o1, buildLogEntryDecomp L t2 o2,
    (h1.trans h2.symm).map extraSeg, ?_⟩
  intro hlen
  match he : L.extras, hlen with
  | [], _ =>
    rw [he] at h1 h2
    rw [List.perm_nil.mp h1, List.perm_nil.mp h2]
  | [kv], _ =>
    rw [he] at h1 h2
    rw [List.perm_singleton.mp h1, List.perm_singleton.mp h2]

theorem c7_witness :
    buildLogEntry (New 7) "T1" [] = "level=I time=" ++ "T1" ++ (restLine (New 7) ++ extrasString []) ∧
    (([] : List (String × LogValue)).map extraSeg).Perm ([].map extraSeg) := by
  have h := c7_render_deterministic_amended (New 7) "T1" "T2" [] [] (by decide) (by decide)
  exact ⟨h.1, h.2.2.1⟩

/-! ### C5: the middleware remembers the last, not the first, status -/

theorem runHandlerStatus (calls : List Int) (w : LRW) :
    (runHandler calls w).status = calls.getLast?.getD w.status := by
  induction calls using List.reverseRecOn with
  | nil => simp [runHandler]
  | append_singleton xs x ih =>
    simp [runHandler, List.foldl_append, lrwWriteHeader]

theorem runHandlerForwarded (calls : List Int) (w : LRW) :
    (runHandler calls w).forwarded = w.forwarded ++ calls := by
  induction calls generalizing w with
  | nil => simp [runHandler]
  | cons x xs ih =>
    simp [runHandler] at ih ⊢
    rw [ih]
    simp [lrwWriteHeader]

/-- C5 fails as stated: the wrapped writer's `WriteHeader` overwrites the
remembered status on every call, so after the downstream handler calls
WriteHeader(200) and then WriteHeader(500), `setStatus` receives 500, the
LAST argument, not the first. -/
theorem c5_counterexample :
    (serveHTTP { statusCalls := [200, 500], doesPanic := false }
        { xff := none, remoteAddr := "", dumpLines := [] } (New 0) "T" [] []).logger.status = 500 ∧
    ([(200 : Int), 500].head?.getD 0 = 200) ∧ ((500 : Int) ≠ 200) := by
  refine ⟨by decide, by decide, by decide⟩

/-- C5 amended: for a downstream handler that returns normally, the status
passed to `setStatus` before `log()` equals the argument of the LAST
status-code-setting call on the wrapped writer (0 if the handler never set
one), and every intercepted status write is forwarded, in order, to the
real response writer. -/
theorem c5_middleware_status_amended (h : Handler) (r : Request) (l : HttpLogger)
    (now : String) (o : List (String × LogValue)) (sink : List String)
    (hp : h.doesPanic = false) :
    (serveHTTP h r l now o sink).logger.status = h.statusCalls.getLast?.getD 0 ∧
    (serveHTTP h r l now o sink).writer.forwarded = h.statusCalls := by
  constructor
  · simp [serveHTTP, hp, Log, SetStatus, runHandlerStatus]
  · simp [serveHTTP, hp, runHandlerForwarded]

theorem c5_witness :
    (serveHTTP { statusCalls := [201, 404], doesPanic := false }
        { xff := none, remoteAddr := "", dumpLines := [] } (New 0) "T" [] []).logger.status = 404 ∧
    (serveHTTP { statusCalls := [201, 404], doesPanic := false }
        { xff := none, remoteAddr := "", dumpLines := [] } (New 0) "T" [] []).writer.forwarded =
      [201, 404] := by
  have h := c5_middleware_status_amended { statusCalls := [201, 404], doesPanic := false }
    { xff := none, remoteAddr := "", dumpLines := [] } (New 0) "T" [] [] rfl
  refine ⟨?_, h.2⟩
  rw [h.1]
  decide

/-! ### C6: a downstream panic skips the log call -/

/-- C6 is right about the intent but wrong about the code: in
`loggingHandler.ServeHTTP` the `defer h.logger.Log()` is the LAST
statement, registered only after `h.next.ServeHTTP` has returned normally,
so when the downstream handler panics the unwind happens before any defer
is registered in this frame and `Log` is never called — the sink receives
no write at all, where the claim demands exactly one.  A normal return
does produce exactly one write. -/
theorem c6_panic_no_log :
    (serveHTTP { statusCalls := [200], doesPanic := true }
        { xff := none, remoteAddr := "", dumpLines := [] } (New 0) "T" [] []).sink = [] ∧
    (serveHTTP { statusCalls := [200], doesPanic := true }
        { xff := none, remoteAddr := "", dumpLines := [] } (New 0) "T" [] []).panicked = true ∧
    (serveHTTP { statusCalls := [200], doesPanic := false }
        { xff := none, remoteAddr := "", dumpLines := [] } (New 0) "T" [] []).sink.length = 1 := by
  refine ⟨by decide, by decide, by decide⟩

theorem c10_witness :
    (SetStatus 200 (New 3)).status = 200 ∧
    lookupExtra "uid" (Add "uid" (LogValue.int 1234) (New 3)).extras = some (LogValue.int 1234) ∧
    lookupExtra "meta" (Add "uid" (LogValue.int 1234) (New 3)).extras =
      lookupExtra "meta" (New 3).extras := by
  have h := c10_setStatus_add_frame (New 3) 200 "uid" (LogValue.int 1234)
  exact ⟨h.1, h.2.2.2.2.2.2.2.2.2.2.2.2.2.2.2.1,
    h.2.2.2.2.2.2.2.2.2.2.2.2.2.2.2.2 "meta" (by decide)⟩

/-! ### C2: query splitting and the query-to-JSON transform -/

theorem rangeFindZero (p : Nat → Bool) (n : Nat) (hn : 0 < n) (hp : p 0 = true) :
    (List.range n).find? p = some 0 := by
  cases n with
  | zero => omega
  | succ k =>
    rw [List.range_succ_eq_map]
    exact List.find?_cons_of_pos _ hp

theorem filterRangeGetLast (p : Nat → Bool) (n m : Nat) (hm : m < n) (hp : p m = true)
    (hup : ∀ k, m < k → k < n → p k = false) :
    ((List.range n).filter p).getLast? = some m := by
  have hn : n = (m + 1) + (n - (m + 1)) := by omega
  rw [hn, List.range_add, List.filter_append]
  have h2 : ((List.range (n - (m + 1))).map (fun x => (m + 1) + x)).filter p = [] := by
    rw [List.filter_eq_nil_iff]
    intro a ha
    obtain ⟨x, hx, rfl⟩ := List.mem_map.mp ha
    have hx' := List.mem_range.mp hx
    simp [hup ((m + 1) + x) (by omega) (by omega)]
  rw [h2, List.append_nil, List.range_succ, List.filter_append]
  have h3 : List.filter p [m] = [m] := by simp [hp]
  rw [h3, List.getLast?_concat]

/-- The greedy split of `(.+)\?(.+)` on a target `a?b`: it happens at the
question mark between `a` and `b` exactly when no question mark inside `b`
is followed by a further character, i.e. when that question mark is the
last one with at least one character after it (`b` itself may end in a
question mark). -/
theorem splitQueryAppend (a b : String) (ha : a ≠ "") (hb : b ≠ "")
    (hqb : '?' ∉ b.data.dropLast) (hna : '\n' ∉ a.data) (hnb : '\n' ∉ b.data) :
    splitQuery (a ++ "?" ++ b) = some (a, b) := by
  have hdata : (a ++ "?" ++ b).data = a.data ++ '?' :: b.data := by
    rw [String.data_append, String.data_append, List.append_assoc]
    rfl
  have hA : a.data ≠ [] := fun h => ha (String.ext h)
  have hB : b.data ≠ [] := fun h => hb (String.ext h)
  have hAlen : 1 ≤ a.data.length := List.length_pos.mpr hA
  have hBlen : 1 ≤ b.data.length := List.length_pos.mpr hB
  have hlen : (a.data ++ '?' :: b.data).length = a.data.length + (b.data.length + 1) := by
    simp
  have htake : (a.data ++ '?' :: b.data).take a.data.length = a.data :=
    List.take_left a.data ('?' :: b.data)
  have hdrop : (a.data ++ '?' :: b.data).drop (a.data.length + 1) = b.data := by
    have e1 : a.data ++ '?' :: b.data = (a.data ++ ['?']) ++ b.data := by simp
    have e2 : a.data.length + 1 = (a.data ++ ['?']).length := by simp
    rw [e1, e2, List.drop_left]
  have hBtw : b.data.takeWhile dotGo = b.data := by
    apply takeWhileAll
    intro c hc
    simp only [dotGo, decide_eq_true_eq]
    exact fun hcn => hnb (hcn ▸ hc)
  have hBemp : b.data.isEmpty = false := by
    cases hBc : b.data with
    | nil => exact absurd hBc hB
    | cons x xs => rfl
  have key1 : okQ (a.data ++ '?' :: b.data) a.data.length = true := by
    have g1 : (a.data ++ '?' :: b.data).get? a.data.length = some '?' := by
      rw [List.get?_append_right (Nat.le_refl _)]
      simp
    have g1d : decide ((a.data ++ '?' :: b.data).get? a.data.length = some '?') = true := by
      rw [g1]
      simp
    have g2 : a.data.all dotGo = true := by
      rw [List.all_eq_true]
      intro c hc
      simp only [dotGo, decide_eq_true_eq]
      exact fun hcn => hna (hcn ▸ hc)
    unfold okQ
    rw [g1d, htake, hdrop, hBtw, g2, hBemp]
    simp
    exact hAlen
  have key2 : ∀ k, a.data.length < k → k < (a.data ++ '?' :: b.data).length →
      okQ (a.data ++ '?' :: b.data) k = false := by
    intro k hk1 hk2
    have hged : (a.data ++ '?' :: b.data).get? k = ('?' :: b.data).get? (k - a.data.length) :=
      List.get?_append_right (le_of_lt hk1)
    have hkk : k - a.data.length = (k - a.data.length - 1) + 1 := by omega
    have hged2 : ('?' :: b.data).get? (k - a.data.length) = b.data.get? (k - a.data.length - 1) := by
      rw [hkk]
      rfl
    have hlt : k - a.data.length - 1 < b.data.length := by
      rw [hlen] at hk2
      omega
    obtain ⟨c, hcsome⟩ : ∃ c, b.data.get? (k - a.data.length - 1) = some c :=
      ⟨_, List.get?_eq_get hlt⟩
    by_cases hc : c = '?'
    · subst hc
      have hkval : k = a.data.length + b.data.length := by
        by_contra hne
        have hjlt : k - a.data.length - 1 < b.data.length - 1 := by
          rw [hlen] at hk2
          omega
        have hmem : '?' ∈ b.data.dropLast := by
          apply List.get?_mem (l := b.data.dropLast) (n := k - a.data.length - 1)
          rw [List.dropLast_eq_take, List.get?_take hjlt]
          exact hcsome
        exact hqb hmem
      have hdropnil : (a.data ++ '?' :: b.data).drop (k + 1) = [] := by
        apply List.drop_eq_nil_of_le
        rw [hlen]
        omega
      unfold okQ
      rw [hdropnil]
      simp
    · have hfalse : decide ((a.data ++ '?' :: b.data).get? k = some '?') = false := by
        rw [hged, hged2, hcsome]
        simp [hc]
      unfold okQ
      rw [hfalse]
      simp
  have hcore : queryCore (a.data ++ '?' :: b.data) = some (a.data, b.data) := by
    unfold queryCore
    rw [filterRangeGetLast (okQ (a.data ++ '?' :: b.data)) _ a.data.length
      (by rw [hlen]; omega) key1 key2]
    show some ((a.data ++ '?' :: b.data).take a.data.length,
      ((a.data ++ '?' :: b.data).drop (a.data.length + 1)).takeWhile dotGo) = _
    rw [htake, hdrop, hBtw]
  have hfind : (List.range (a.data ++ '?' :: b.data).length).find?
      (fun st => (queryCore ((a.data ++ '?' :: b.data).drop st)).isSome) = some 0 := by
    apply rangeFindZero
    · rw [hlen]; omega
    · show (queryCore ((a.data ++ '?' :: b.data).drop 0)).isSome = true
      rw [List.drop_zero, hcore]
      rfl
  unfold splitQuery
  rw [hdata, hfind]
  show (queryCore ((a.data ++ '?' :: b.data).drop 0)).map
    (fun p => (String.mk p.1, String.mk p.2)) = _
  rw [List.drop_zero, hcore]
  rfl

/-- Modelled from the amended claim's words: the query-to-JSON transform
replaces every equals sign with the FOUR characters quote colon space
quote, every ampersand with the four characters quote comma space quote,
and wraps the result in open-brace-quote and quote-close-brace. -/
def specTransform4 (s : String) : String :=
  "\x7b\"" ++ String.mk (s.data.bind (fun c =>
    if c = '=' then ['\"', ':', ' ', '\"']
    else if c = '&' then ['\"', ',', ' ', '\"'] else [c])) ++ "\"\x7d"

/-- Modelled from the original claim's words: the same transform but with
every equals sign replaced by the THREE characters quote colon space. -/
def claimTransform3 (s : String) : String :=
  "\x7b\"" ++ String.mk (s.data.bind (fun c =>
    if c = '=' then ['\"', ':', ' ']
    else if c = '&' then ['\"', ',', ' ', '\"'] else [c])) ++ "\"\x7d"

theorem replaceQSBind (cs : List Char) : replaceQS cs = cs.bind (fun c =>
    if c = '=' then ['\"', ':', ' ', '\"']
    else if c = '&' then ['\"', ',', ' ', '\"'] else [c]) := by
  induction cs with
  | nil => rfl
  | cons c cs ih => simp [replaceQS, List.cons_bind, ih]

/-- C2 fails as stated: the code replaces an equals sign with the four
characters quote colon space quote, not three.  For the request line
`GET /r?foo=bar HTTP/1.1` the code renders params as
open-brace quote foo quote colon space quote bar quote close-brace, while
the claim's three-character rule predicts a string with no quote before
`bar`. -/
theorem c2_counterexample :
    (SetRequestInfo
        { xff := none, remoteAddr := "192.0.2.1:80",
          dumpLines := ["GET /r?foo=bar HTTP/1.1", "Host: x", ""] } (New 0)).path = "/r" ∧
    (SetRequestInfo
        { xff := none, remoteAddr := "192.0.2.1:80",
          dumpLines := ["GET /r?foo=bar HTTP/1.1", "Host: x", ""] } (New 0)).params =
      "\x7b\"foo\": \"bar\"\x7d" ∧
    claimTransform3 "foo=bar" = "\x7b\"foo\": bar\"\x7d" ∧
    ("\x7b\"foo\": \"bar\"\x7d" : String) ≠ "\x7b\"foo\": bar\"\x7d" := by
  refine ⟨by decide, by decide, by decide, by decide⟩

/-- C2 amended: when the request-line pattern matches a line with method
`m` and target `a?b`, where the question mark between `a` and `b` is the
LAST one with at least one character before it and at least one
(newline-free) character after it — expressed as: no question mark inside
`b` is followed by a further character, so `b` may itself end in a
question mark — `setPath` sets method to `m`, path to `a` and params to
the query-to-JSON transform of `b`; the transform is total and replaces
every equals sign with the four characters quote colon space quote and
every ampersand with quote comma space quote before wrapping. -/
theorem c2_query_split_amended (l : HttpLogger) (line m a b : String)
    (hm : matchReqLine line = some (m, a ++ "?" ++ b))
    (ha : a ≠ "") (hb : b ≠ "") (hqb : '?' ∉ b.data.dropLast)
    (hna : '\n' ∉ a.data) (hnb : '\n' ∉ b.data) :
    setPath l line = { l with method := m, path := a, params := toJSON b } ∧
    ∀ s : String, toJSON s = specTransform4 s := by
  constructor
  · unfold setPath
    rw [hm]
    have hq := splitQueryAppend a b ha hb hqb hna hnb
    simp only [hq]
  · intro s
    unfold toJSON specTransform4
    rw [replaceQSBind]

theorem c2_witness :
    setPath (New 1) "GET /r?a=1&b=2 HTTP/1.1" =
      { New 1 with method := "GET", path := "/r", params := toJSON "a=1&b=2" } ∧
    setPath (New 2) "GET /a?b? HTTP/1.1" =
      { New 2 with method := "GET", path := "/a", params := toJSON "b?" } ∧
    toJSON "x=y" = specTransform4 "x=y" := by
  have h := c2_query_split_amended (New 1) "GET /r?a=1&b=2 HTTP/1.1" "GET" "/r" "a=1&b=2"
    (by decide) (by decide) (by decide) (by decide) (by decide) (by decide)
  have h2 := c2_query_split_amended (New 2) "GET /a?b? HTTP/1.1" "GET" "/a" "b?"
    (by decide) (by decide) (by decide) (by decide) (by decide) (by decide)
  exact ⟨h.1, h2.1, h.2 "x=y"⟩

/-! ### C4: ip extraction and host-port splitting -/

theorem idxLastEqNone (c : Char) (l : List Char) (h : c ∉ l) : idxLast c l = none := by
  induction l with
  | nil => rfl
  | cons x xs ih =>
    have hx : x ≠ c := fun hh => h (by rw [← hh]; exact List.mem_cons_self x xs)
    have hxs : c ∉ xs := fun hh => h (List.mem_cons_of_mem x hh)
    simp [idxLast, ih hxs, hx]

theorem idxLastSep (c : Char) (h p : List Char) (hp : c ∉ p) :
    idxLast c (h ++ c :: p) = some h.length := by
  induction h with
  | nil => simp [idxLast, idxLastEqNone c p hp]
  | cons x xs ih =>
    show (match idxLast c (xs ++ c :: p) with
      | some i => some (i + 1)
      | none => if x = c then some 0 else none) = some (x :: xs).length
    rw [ih]
    simp

theorem idxFirstEqNone (c : Char) (l : List Char) (h : c ∉ l) : idxFirst c l = none := by
  induction l with
  | nil => rfl
  | cons x xs ih =>
    have hx : x ≠ c := fun hh => h (by rw [← hh]; exact List.mem_cons_self x xs)
    have hxs : c ∉ xs := fun hh => h (List.mem_cons_of_mem x hh)
    simp [idxFirst, hx, ih hxs]

theorem idxFirstSep (c : Char) (h p : List Char) (hh : c ∉ h) :
    idxFirst c (h ++ c :: p) = some h.length := by
  induction h with
  | nil => simp [idxFirst]
  | cons x xs ih =>
    have hx : x ≠ c := fun hxc => hh (by rw [← hxc]; exact List.mem_cons_self x xs)
    have hxs : c ∉ xs := fun m => hh (List.mem_cons_of_mem x m)
    simp [idxFirst, hx, ih hxs]

theorem hasCharFalseIff (c : Char) (l : List Char) : hasChar c l = false ↔ c ∉ l := by
  induction l with
  | nil => simp [hasChar]
  | cons x xs ih =>
    by_cases hx : x = c
    · subst hx
      simp [hasChar]
    · simp [hasChar, hx, ih, List.mem_cons, Ne.symm hx]

/-- `SplitHostPort` on a plain `host:port` address whose pieces are free of
colons and brackets: the host part. -/
theorem splitHostPortPlain (h p : List Char) (hc : ':' ∉ h) (hlb : '[' ∉ h) (hrb : ']' ∉ h)
    (hc2 : ':' ∉ p) (hlb2 : '[' ∉ p) (hrb2 : ']' ∉ p) :
    splitHostPortCore (h ++ ':' :: p) = some (h, p) := by
  have hi : idxLast ':' (h ++ ':' :: p) = some h.length := idxLastSep ':' h p hc2
  obtain ⟨c0, hc0, hc0ne⟩ : ∃ c0, (h ++ ':' :: p).head? = some c0 ∧ c0 ≠ '[' := by
    cases h with
    | nil => exact ⟨':', rfl, by decide⟩
    | cons x xs =>
      exact ⟨x, rfl, fun hx => hlb (by rw [← hx]; exact List.mem_cons_self x xs)⟩
  have htk : (h ++ ':' :: p).take h.length = h := List.take_left h (':' :: p)
  have hdp : (h ++ ':' :: p).drop (h.length + 1) = p := by
    have e1 : h ++ ':' :: p = (h ++ [':']) ++ p := by simp
    have e2 : h.length + 1 = (h ++ [':']).length := by simp
    rw [e1, e2, List.drop_left]
  have e1 : hasChar ':' ((h ++ ':' :: p).take h.length) = false := by
    rw [htk]
    exact (hasCharFalseIff ':' h).mpr hc
  have e2 : hasChar '[' (h ++ ':' :: p) = false := by
    apply (hasCharFalseIff _ _).mpr
    intro hm
    rcases List.mem_append.mp hm with hm1 | hm2
    · exact hlb hm1
    · rcases List.mem_cons.mp hm2 with hm3 | hm4
      · exact absurd hm3 (by decide)
      · exact hlb2 hm4
  have e3 : hasChar ']' (h ++ ':' :: p) = false := by
    apply (hasCharFalseIff _ _).mpr
    intro hm
    rcases List.mem_append.mp hm with hm1 | hm2
    · exact hrb hm1
    · rcases List.mem_cons.mp hm2 with hm3 | hm4
      · exact absurd hm3 (by decide)
      · exact hrb2 hm4
  unfold splitHostPortCore
  rw [hi, hc0]
  show (if c0 = '[' then _ else _) = _
  rw [if_neg hc0ne, e1, e2, e3]
  show (if false = true then _ else if false = true then _ else if false = true then _
    else some ((h ++ ':' :: p).take h.length, (h ++ ':' :: p).drop (h.length + 1))) = _
  rw [htk, hdp]
  simp

/-- `SplitHostPort` on a bracketed `[host]:port` address: the bracket-free
host between the brackets (the host itself may contain colons). -/
theorem splitHostPortBracket (h p : List Char) (hlb : '[' ∉ h) (hrb : ']' ∉ h)
    (hc2 : ':' ∉ p) (hlb2 : '[' ∉ p) (hrb2 : ']' ∉ p) :
    splitHostPortCore ('[' :: h ++ ']' :: ':' :: p) = some (h, p) := by
  have hi : idxLast ':' ('[' :: h ++ ']' :: ':' :: p) = some (h.length + 2) := by
    have e : '[' :: h ++ ']' :: ':' :: p = ('[' :: h ++ [']']) ++ ':' :: p := by simp
    rw [e, idxLastSep ':' ('[' :: h ++ [']']) p hc2]
    simp
  have he : idxFirst ']' ('[' :: h ++ ']' :: ':' :: p) = some (h.length + 1) := by
    have e : '[' :: h ++ ']' :: ':' :: p = ('[' :: h) ++ ']' :: (':' :: p) := by simp
    have hnr : ']' ∉ '[' :: h := by
      intro hm
      rcases List.mem_cons.mp hm with hm1 | hm2
      · exact absurd hm1 (by decide)
      · exact hrb hm2
    rw [e, idxFirstSep ']' ('[' :: h) (':' :: p) hnr]
    simp
  have hlen : ('[' :: h ++ ']' :: ':' :: p).length = h.length + 3 + p.length := by
    simp
    omega
  have htk : ('[' :: h ++ ']' :: ':' :: p).take (h.length + 1) = '[' :: h := by
    have e : '[' :: h ++ ']' :: ':' :: p = ('[' :: h) ++ ']' :: (':' :: p) := by simp
    have e2 : h.length + 1 = ('[' :: h).length := by simp
    rw [e, e2, List.take_left]
  have hd1 : ('[' :: h ++ ']' :: ':' :: p).drop 1 = h ++ ']' :: ':' :: p := rfl
  have hd2 : ('[' :: h ++ ']' :: ':' :: p).drop (h.length + 2) = ':' :: p := by
    have e : '[' :: h ++ ']' :: ':' :: p = ('[' :: h ++ [']']) ++ ':' :: p := by simp
    have e2 : h.length + 2 = ('[' :: h ++ [']']).length := by simp
    rw [e, e2, List.drop_left]
  have hd3 : ('[' :: h ++ ']' :: ':' :: p).drop (h.length + 2 + 1) = p := by
    have e : '[' :: h ++ ']' :: ':' :: p = ('[' :: h ++ [']', ':']) ++ p := by simp
    have e2 : h.length + 2 + 1 = ('[' :: h ++ [']', ':']).length := by simp
    rw [e, e2, List.drop_left]
  have e2 : hasChar '[' (('[' :: h ++ ']' :: ':' :: p).drop 1) = false := by
    rw [hd1]
    apply (hasCharFalseIff _ _).mpr
    intro hm
    rcases List.mem_append.mp hm with hm1 | hm2
    · exact hlb hm1
    · rcases List.mem_cons.mp hm2 with hm3 | hm4
      · exact absurd hm3 (by decide)
      · rcases List.mem_cons.mp hm4 with hm5 | hm6
        · exact absurd hm5 (by decide)
        · exact hlb2 hm6
  have e3 : hasChar ']' (('[' :: h ++ ']' :: ':' :: p).drop (h.length + 1 + 1)) = false := by
    have : h.length + 1 + 1 = h.length + 2 := by omega
    rw [this, hd2]
    apply (hasCharFalseIff _ _).mpr
    intro hm
    rcases List.mem_cons.mp hm with hm1 | hm2
    · exact absurd hm1 (by decide)
    · exact hrb2 hm2
  unfold splitHostPortCore
  rw [hi]
  show (match ('[' :: h ++ ']' :: ':' :: p).head? with
    | none => none
    | some c0 => _) = _
  show (if ('[' : Char) = '[' then _ else _) = _
  rw [if_pos rfl, he]
  show (if h.length + 1 + 1 = ('[' :: h ++ ']' :: ':' :: p).length then none
    else if h.length + 1 + 1 = h.length + 2 then
      if hasChar '[' (('[' :: h ++ ']' :: ':' :: p).drop 1) = true then none
      else if hasChar ']' (('[' :: h ++ ']' :: ':' :: p).drop (h.length + 1 + 1)) = true then none
      else some ((('[' :: h ++ ']' :: ':' :: p).take (h.length + 1)).drop 1,
        ('[' :: h ++ ']' :: ':' :: p).drop (h.length + 2 + 1))
    else none) = _
  rw [hlen, e2, e3, htk, hd3]
  have hne : ¬(h.length + 1 + 1 = h.length + 3 + p.length) := by omega
  rw [if_neg hne, if_pos (by omega)]
  simp

/-- Modelled from the claim's words: the peer address with everything from
its last colon onward removed, or the address itself when it has no
colon. -/
def specIpLastColon (s : String) : String :=
  match idxLast ':' s.data with
  | some i => String.mk (s.data.take i)
  | none => s

/-- C4 fails as stated for bracketed IPv6 peer addresses: for remote
address `[::1]:80` the code's `SplitHostPort` strips the brackets and
yields `::1`, while the claim's last-colon rule yields `[::1]`. -/
theorem c4_counterexample :
    getIP { xff := none, remoteAddr := "[::1]:80", dumpLines := [] } = "::1" ∧
    specIpLastColon "[::1]:80" = "[::1]" ∧
    ("::1" : String) ≠ "[::1]" := by
  refine ⟨by decide, by decide, by decide⟩

/-- C4 amended: a request carrying a nonempty `X-Forwarded-For` value uses
it verbatim as ip.  Otherwise the ip is the host part produced by
host-port splitting of the peer address: for a plain `host:port` address
(single colon, no brackets) the part before the colon, for a bracketed
`[host]:port` address the host between the brackets with the brackets
stripped; a peer address with no colon at all does not split and is used
verbatim. -/
theorem c4_getIP_amended (r : Request) :
    (∀ v, r.xff = some v → v ≠ "" → getIP r = v) ∧
    (r.xff.getD "" = "" →
      ((∀ h p, r.remoteAddr = h ++ ":" ++ p → ':' ∉ h.data → '[' ∉ h.data → ']' ∉ h.data →
          ':' ∉ p.data → '[' ∉ p.data → ']' ∉ p.data → getIP r = h) ∧
       (∀ h p, r.remoteAddr = "[" ++ h ++ "]:" ++ p → '[' ∉ h.data → ']' ∉ h.data →
          ':' ∉ p.data → '[' ∉ p.data → ']' ∉ p.data → getIP r = h) ∧
       (':' ∉ r.remoteAddr.data → getIP r = r.remoteAddr))) := by
  constructor
  · intro v hv hne
    have hpos : 0 < v.length := by
      rcases Nat.eq_zero_or_pos v.length with h0 | hp
      · exact absurd ((stringLengthZero v).mp h0) hne
      · exact hp
    unfold getIP
    rw [hv]
    show (if 0 < ((some v).getD "").length then (some v).getD ""
      else match splitHostPort r.remoteAddr with
        | some hp => hp.1
        | none => r.remoteAddr) = v
    rw [Option.getD_some, if_pos hpos]
  · intro hxe
    have hbase : getIP r = match splitHostPort r.remoteAddr with
        | some hp => hp.1
        | none => r.remoteAddr := by
      unfold getIP
      rw [hxe]
      show (if 0 < ("" : String).length then ("" : String)
        else match splitHostPort r.remoteAddr with
          | some hp => hp.1
          | none => r.remoteAddr) = _
      rw [if_neg (by decide)]
    refine ⟨?_, ?_, ?_⟩
    · intro h p heq hc hlb hrb hc2 hlb2 hrb2
      have hdata : r.remoteAddr.data = h.data ++ ':' :: p.data := by
        rw [heq, String.data_append, String.data_append, List.append_assoc]
        rfl
      rw [hbase]
      unfold splitHostPort
      rw [hdata, splitHostPortPlain h.data p.data hc hlb hrb hc2 hlb2 hrb2]
      rfl
    · intro h p heq hlb hrb hc2 hlb2 hrb2
      have hdata : r.remoteAddr.data = '[' :: h.data ++ ']' :: ':' :: p.data := by
        rw [heq, String.data_append, String.data_append, String.data_append]
        simp
      rw [hbase]
      unfold splitHostPort
      rw [hdata, splitHostPortBracket h.data p.data hlb hrb hc2 hlb2 hrb2]
      rfl
    · intro hnc
      have hnone : splitHostPortCore r.remoteAddr.data = none := by
        unfold splitHostPortCore
        rw [idxLastEqNone ':' r.remoteAddr.data hnc]
      rw [hbase]
      unfold splitHostPort
      rw [hnone]
      rfl

theorem c4_witness :
    getIP { xff := some "10.0.0.7", remoteAddr := "9.9.9.9:1", dumpLines := [] } = "10.0.0.7" ∧
    getIP { xff := none, remoteAddr := "1.2.3.4:8080", dumpLines := [] } = "1.2.3.4" ∧
    getIP { xff := none, remoteAddr := "[::1]:80", dumpLines := [] } = "::1" ∧
    getIP { xff := none, remoteAddr := "localhost", dumpLines := [] } = "localhost" := by
  refine ⟨?_, ?_, ?_, ?_⟩
  · exact (c4_getIP_amended
      { xff := some "10.0.0.7", remoteAddr := "9.9.9.9:1", dumpLines := [] }).1
      "10.0.0.7" rfl (by decide)
  · exact ((c4_getIP_amended
      { xff := none, remoteAddr := "1.2.3.4:8080", dumpLines := [] }).2 rfl).1
      "1.2.3.4" "8080" (by decide) (by decide) (by decide)
      (by decide) (by decide) (by decide) (by decide)
  · exact ((c4_getIP_amended
      { xff := none, remoteAddr := "[::1]:80", dumpLines := [] }).2 rfl).2.1
      "::1" "80" (by decide) (by decide) (by decide)
      (by decide) (by decide) (by decide)
  · exact ((c4_getIP_amended
      { xff := none, remoteAddr := "localhost", dumpLines := [] }).2 rfl).2.2 (by decide)

/-! ### C1: what one SetRequestInfo call actually overwrites -/

/-- The method value a single scanned line contributes, if any. -/
def methodWrite (line : String) : Option String :=
  (matchReqLine line).map (fun mt => mt.1)

/-- The path value a single scanned line contributes, if any. -/
def pathWrite (line : String) : Option String :=
  (matchReqLine line).map (fun mt =>
    match splitQuery mt.2 with
    | some pq => pq.1
    | none => mt.2)

/-- The params value a single scanned line contributes, if any: only a
request line whose target splits at a question mark contributes. -/
def paramsWrite (line : String) : Option String :=
  (matchReqLine line).bind (fun mt => (splitQuery mt.2).map (fun pq => toJSON pq.2))

theorem scanStepIp (l : HttpLogger) (line : String) : (scanStep l line).ip = l.ip := by
  unfold scanStep setUa setPath
  cases hm : matchReqLine line with
  | none => cases hu : matchUA line <;> simp [hu]
  | some mt =>
    cases hq : splitQuery mt.2 <;> cases hu : matchUA line <;> simp [hq, hu]

theorem scanStepMethod (l : HttpLogger) (line : String) :
    (scanStep l line).method = (methodWrite line).getD l.method := by
  unfold scanStep setUa setPath methodWrite
  cases hm : matchReqLine line with
  | none => cases hu : matchUA line <;> simp [hu]
  | some mt =>
    cases hq : splitQuery mt.2 <;> cases hu : matchUA line <;> simp [hq, hu]

theorem scanStepPath (l : HttpLogger) (line : String) :
    (scanStep l line).path = (pathWrite line).getD l.path := by
  unfold scanStep setUa setPath pathWrite
  cases hm : matchReqLine line with
  | none => cases hu : matchUA line <;> simp [hu]
  | some mt =>
    cases hq : splitQuery mt.2 <;> cases hu : matchUA line <;> simp [hq, hu]

theorem scanStepParams (l : HttpLogger) (line : String) :
    (scanStep l line).params = (paramsWrite line).getD l.params := by
  unfold scanStep setUa setPath paramsWrite
  cases hm : matchReqLine line with
  | none => cases hu : matchUA line <;> simp [hu]
  | some mt =>
    cases hq : splitQuery mt.2 <;> cases hu : matchUA line <;> simp [hq, hu]

theorem scanStepUa (l : HttpLogger) (line : String) :
    (scanStep l line).ua = (matchUA line).getD l.ua := by
  unfold scanStep setUa setPath
  cases hm : matchReqLine line with
  | none => cases hu : matchUA line <;> simp [hu]
  | some mt =>
    cases hq : splitQuery mt.2 <;> cases hu : matchUA line <;> simp [hq, hu]

/-- Last-writer-wins characterisation of the scanner loop: a string field
updated by `scanStep` as `(w line).getD` ends up holding the last
contributed value, or the initial one when no line contributes. -/
theorem scanField (f : HttpLogger → String) (w : String → Option String)
    (hstep : ∀ l line, f (scanStep l line) = (w line).getD (f l)) :
    ∀ (lines : List String) (l : HttpLogger),
      f (lines.foldl scanStep l) = ((lines.filterMap w).getLast?).getD (f l) := by
  intro lines
  induction lines using List.reverseRecOn with
  | nil => intro l; simp
  | append_singleton xs x ih =>
    intro l
    rw [List.foldl_append]
    show f (scanStep (xs.foldl scanStep l) x) = _
    rw [hstep, ih, List.filterMap_append]
    cases hw : w x with
    | none =>
      have : List.filterMap w [x] = [] := by simp [List.filterMap, hw]
      rw [this, List.append_nil]
      rfl
    | some v =>
      have : List.filterMap w [x] = [v] := by simp [List.filterMap, hw]
      rw [this, List.getLast?_concat]
      rfl

theorem scanIp (lines : List String) (l : HttpLogger) :
    (lines.foldl scanStep l).ip = l.ip := by
  induction lines generalizing l with
  | nil => rfl
  | cons x xs ih =>
    show (xs.foldl scanStep (scanStep l x)).ip = l.ip
    rw [ih, scanStepIp]

/-- The scanner loop of `SetRequestInfo`, with the loop variable `line`
carried alongside the logger, equals the plain fold plus the last line. -/
theorem scanFoldPair (lines : List String) (l : HttpLogger) (s : String) :
    lines.foldl (fun (q : HttpLogger × String) line => (scanStep q.1 line, line)) (l, s)
      = (lines.foldl scanStep l, lines.getLast?.getD s) := by
  induction lines generalizing l s with
  | nil => rfl
  | cons x xs ih =>
    show xs.foldl (fun q line => (scanStep q.1 line, line)) (scanStep l x, x) = _
    rw [ih]
    show (xs.foldl scanStep (scanStep l x), xs.getLast?.getD x) = _
    cases hxs : xs with
    | nil => rfl
    | cons y ys =>
      have h1 : (x :: y :: ys).getLast? = (y :: ys).getLast? := List.getLast?_cons_cons
      cases h2 : (y :: ys).getLast? with
      | none => exact absurd (List.getLast?_eq_none_iff.mp h2) (by simp)
      | some z => simp [h1, h2]

/-- Every params value contributed during a scan comes from `toJSON` and
is therefore nonempty. -/
theorem paramsWriteNeEmpty (line q : String) (h : paramsWrite line = some q) : q ≠ "" := by
  unfold paramsWrite at h
  cases hm : matchReqLine line with
  | none =>
    rw [hm] at h
    exact absurd h (by simp)
  | some mt =>
    rw [hm] at h
    cases hq : splitQuery mt.2 with
    | none =>
      rw [show Option.bind (some mt) (fun mt => (splitQuery mt.2).map (fun pq => toJSON pq.2))
        = (splitQuery mt.2).map (fun pq => toJSON pq.2) from rfl, hq] at h
      exact absurd h (by simp)
    | some pq =>
      rw [show Option.bind (some mt) (fun mt => (splitQuery mt.2).map (fun pq => toJSON pq.2))
        = (splitQuery mt.2).map (fun pq => toJSON pq.2) from rfl, hq] at h
      have h2 : toJSON pq.2 = q := by
        simpa using h
      rw [← h2]
      exact toJSONNeEmpty pq.2

/-- C1 fails as stated: fields the new request does not determine keep
their values from the previous request.  After a first request carrying a
`User-Agent` header and a body, a second request without a `User-Agent`
line and without a query keeps the first request's ua and params, where
extraction from the second request alone yields the empty string for
both. -/
theorem c1_counterexample :
    (SetRequestInfo ⟨none, "192.0.2.1:1", ["GET /y HTTP/1.1", ""]⟩
      (SetRequestInfo
        ⟨none, "192.0.2.1:1", ["POST /x HTTP/1.1", "User-Agent: agent-one", "", "body-one"]⟩
        (New 0))).ua = "agent-one" ∧
    (SetRequestInfo ⟨none, "192.0.2.1:1", ["GET /y HTTP/1.1", ""]⟩ (New 0)).ua = "" ∧
    (SetRequestInfo ⟨none, "192.0.2.1:1", ["GET /y HTTP/1.1", ""]⟩
      (SetRequestInfo
        ⟨none, "192.0.2.1:1", ["POST /x HTTP/1.1", "User-Agent: agent-one", "", "body-one"]⟩
        (New 0))).params = "body-one" ∧
    (SetRequestInfo ⟨none, "192.0.2.1:1", ["GET /y HTTP/1.1", ""]⟩ (New 0)).params = "" := by
  refine ⟨by decide, by decide, by decide, by decide⟩

/-- C1 amended: one `setRequestInfo(r)` call always overwrites ip with the
value extracted from `r`; method, path and ua are overwritten exactly when
some dump line matches the corresponding pattern (the last matching line
wins) and otherwise retain their prior values; params is overwritten by
the query of the last request-line match that has one, otherwise it keeps
its prior nonempty value, and only when it was empty is it set to the last
scanned dump line.  Stale values from an earlier request can therefore
survive the call. -/
theorem c1_setRequestInfo_characterization (l : HttpLogger) (r : Request) :
    (SetRequestInfo r l).ip = getIP r ∧
    (SetRequestInfo r l).method = ((r.dumpLines.filterMap methodWrite).getLast?).getD l.method ∧
    (SetRequestInfo r l).path = ((r.dumpLines.filterMap pathWrite).getLast?).getD l.path ∧
    (SetRequestInfo r l).ua = ((r.dumpLines.filterMap matchUA).getLast?).getD l.ua ∧
    (SetRequestInfo r l).params =
      (match (r.dumpLines.filterMap paramsWrite).getLast? with
       | some q => q
       | none => if l.params = "" then r.dumpLines.getLast?.getD "" else l.params) := by
  have hset : SetRequestInfo r l =
      (if (r.dumpLines.foldl scanStep { l with ip := getIP r, reqRaw := r.dumpLines }).params.length = 0
       then { (r.dumpLines.foldl scanStep { l with ip := getIP r, reqRaw := r.dumpLines }) with
              params := r.dumpLines.getLast?.getD "" }
       else r.dumpLines.foldl scanStep { l with ip := getIP r, reqRaw := r.dumpLines }) := by
    simp only [SetRequestInfo]
    rw [scanFoldPair]
  have fip : (r.dumpLines.foldl scanStep { l with ip := getIP r, reqRaw := r.dumpLines }).ip
      = getIP r := scanIp r.dumpLines _
  have fm : (r.dumpLines.foldl scanStep { l with ip := getIP r, reqRaw := r.dumpLines }).method
      = ((r.dumpLines.filterMap methodWrite).getLast?).getD l.method :=
    scanField (fun x => x.method) methodWrite scanStepMethod r.dumpLines _
  have fp : (r.dumpLines.foldl scanStep { l with ip := getIP r, reqRaw := r.dumpLines }).path
      = ((r.dumpLines.filterMap pathWrite).getLast?).getD l.path :=
    scanField (fun x => x.path) pathWrite scanStepPath r.dumpLines _
  have fu : (r.dumpLines.foldl scanStep { l with ip := getIP r, reqRaw := r.dumpLines }).ua
      = ((r.dumpLines.filterMap matchUA).getLast?).getD l.ua :=
    scanField (fun x => x.ua) matchUA scanStepUa r.dumpLines _
  have fpar : (r.dumpLines.foldl scanStep { l with ip := getIP r, reqRaw := r.dumpLines }).params
      = ((r.dumpLines.filterMap paramsWrite).getLast?).getD l.params :=
    scanField (fun x => x.params) paramsWrite scanStepParams r.dumpLines _
  by_cases hc : (r.dumpLines.foldl scanStep
      { l with ip := getIP r, reqRaw := r.dumpLines }).params.length = 0
  · rw [hset, if_pos hc]
    refine ⟨fip, fm, fp, fu, ?_⟩
    show r.dumpLines.getLast?.getD "" = _
    cases hq : (r.dumpLines.filterMap paramsWrite).getLast? with
    | some q =>
      have hmem := List.mem_of_getLast?_eq_some hq
      obtain ⟨line, _, hpw⟩ := List.mem_filterMap.mp hmem
      have hqe : q ≠ "" := paramsWriteNeEmpty line q hpw
      rw [fpar, hq] at hc
      exact absurd ((stringLengthZero q).mp hc) hqe
    | none =>
      rw [fpar, hq] at hc
      have hl : l.params = "" := (stringLengthZero l.params).mp hc
      rw [if_pos hl]
  · rw [hset, if_neg hc]
    refine ⟨fip, fm, fp, fu, ?_⟩
    cases hq : (r.dumpLines.filterMap paramsWrite).getLast? with
    | some q =>
      rw [fpar, hq]
      rfl
    | none =>
      rw [fpar, hq] at hc ⊢
      have hl : l.params ≠ "" := fun he => hc ((stringLengthZero l.params).mpr he)
      show l.params = _
      rw [if_neg hl]

end Httplog
